import Mathlib

/-!
# Verification of the UK gilt pricing and ladder engine

A shallow embedding of the core of `gilts/gilts.py`: coupon-date
generation, first-period classification, accrued interest, clean/dirty
price conversion, projected cash flows, the final-period yield formula,
index-linked specialisation (reference RPI, index ratio, indexed cash
flows) and the ladder's event ordering.

Conventions of the embedding:
* dates are Gregorian `(year, month, day)` triples; `toRD` maps a date to
  its day number (days since 0000-03-01, proleptic Gregorian), so Python's
  `(a - b).days` becomes `daysBetween a b = toRD a - toRD b` and date
  comparisons compare day numbers;
* Python floats become `ℚ`; `round(x, n)` becomes exact half-even decimal
  rounding on `ℚ`;
* code that can raise (indexing `next_coupon_dates[0]` on an empty list,
  failed `assert`s, division by zero where reachable) returns `Option`;
* the calendar primitives of the repository's `ukcalendar` module and the
  RPI series object are not part of the sources under review, so they are
  modelled from the spec: `shift_month` clamps the day to the end of the
  month, business days are non-weekend days outside a supplied bank-holiday
  list, and the RPI series is an abstract record of the interface the spec
  gives it;
* real-number exponentiation and the Newton root-finder used by `ytm` are
  external numeric primitives, taken as function parameters.
-/

/- Batteries seals the rational-number operations against unfolding; the
concrete witnesses below evaluate them with `decide`, so restore the
default reducibility (the kernel ignores the seal anyway). -/
attribute [local semireducible] Rat.add Rat.mul Rat.inv Rat.sub Rat.ofScientific

/-! ## Calendar primitives -/

/-- Day count of 1 March of year `y` (days since 0000-03-01, proleptic Gregorian). -/
def yearStart (y : ℤ) : ℤ :=
  y / 400 * 146097 + y % 400 * 365 + (y % 400) / 4 - (y % 400) / 100

/-- Day count of the first day of linear March-based month `u`
(days since 0000-03-01, proleptic Gregorian). -/
def civilMonthStart (u : ℤ) : ℤ :=
  yearStart (u / 12) + (153 * (u % 12) + 2) / 5

theorem yearStart_step (y : ℤ) :
    yearStart y + 365 ≤ yearStart (y + 1) ∧ yearStart (y + 1) ≤ yearStart y + 366 := by
  unfold yearStart
  by_cases h : y % 400 = 399
  · omega
  · omega

theorem civilMonthStart_step (u : ℤ) :
    civilMonthStart u + 28 ≤ civilMonthStart (u + 1) ∧
    civilMonthStart (u + 1) ≤ civilMonthStart u + 31 := by
  unfold civilMonthStart
  by_cases h : u % 12 = 11
  · have h1 : (u + 1) / 12 = u / 12 + 1 := by omega
    have h2 : (u + 1) % 12 = 0 := by omega
    rw [h1, h2, h]
    have := yearStart_step (u / 12)
    omega
  · have h1 : (u + 1) / 12 = u / 12 := by omega
    have h2 : (u + 1) % 12 = u % 12 + 1 := by omega
    rw [h1, h2]
    have hm : 0 ≤ u % 12 ∧ u % 12 ≤ 10 := by omega
    omega

theorem civilMonthStart_step6 (u : ℤ) :
    civilMonthStart u + 168 ≤ civilMonthStart (u + 6) := by
  have h0 := civilMonthStart_step u
  have h1 := civilMonthStart_step (u + 1)
  have h2 := civilMonthStart_step (u + 2)
  have h3 := civilMonthStart_step (u + 3)
  have h4 := civilMonthStart_step (u + 4)
  have h5 := civilMonthStart_step (u + 5)
  have e1 : u + 1 + 1 = u + 2 := by ring
  have e2 : u + 2 + 1 = u + 3 := by ring
  have e3 : u + 3 + 1 = u + 4 := by ring
  have e4 : u + 4 + 1 = u + 5 := by ring
  have e5 : u + 5 + 1 = u + 6 := by ring
  rw [e1] at h1; rw [e2] at h2; rw [e3] at h3; rw [e4] at h4; rw [e5] at h5
  omega

/-- A Gregorian calendar date, mirroring Python's `datetime.date`. -/
structure Date where
  year : ℤ
  month : ℤ
  day : ℤ
deriving DecidableEq, Repr

/-- Day number of a date (days since 0000-03-01, proleptic Gregorian);
the standard civil-from-days correspondence. -/
def toRD (d : Date) : ℤ := civilMonthStart (12 * d.year + d.month - 3) + d.day - 1

/-- Python's `(a - b).days`. -/
def daysBetween (a b : Date) : ℤ := toRD a - toRD b

/-- Chronological order on dates (Python's `<=` on `datetime.date`). -/
def leD (a b : Date) : Prop := toRD a ≤ toRD b

/-- Chronological strict order on dates (Python's `<` on `datetime.date`). -/
def ltD (a b : Date) : Prop := toRD a < toRD b

instance (a b : Date) : Decidable (leD a b) := by unfold leD; infer_instance

instance (a b : Date) : Decidable (ltD a b) := by unfold ltD; infer_instance

def isLeapYear (y : ℤ) : Prop :=
  (y % 4 = 0 ∧ y % 100 ≠ 0) ∨ y % 400 = 0

instance (y : ℤ) : Decidable (isLeapYear y) := by
  unfold isLeapYear; infer_instance

/-- Modelled from the spec: the `ukcalendar` primitive `days_in_month(y, m)`,
standard Gregorian month lengths. -/
def days_in_month (y m : ℤ) : ℤ :=
  if m = 2 then (if isLeapYear y then 29 else 28)
  else if m = 4 ∨ m = 6 ∨ m = 9 ∨ m = 11 then 30
  else 31

theorem days_in_month_bounds (y m : ℤ) :
    28 ≤ days_in_month y m ∧ days_in_month y m ≤ 31 := by
  unfold days_in_month
  split <;> [skip; split] <;> try split
  all_goals omega

/-- The date of linear month count `t` (`t = 12*year + (month - 1)`),
with the day clamped to the end of the month. -/
def monthsToDate (t dday : ℤ) : Date :=
  ⟨t / 12, t % 12 + 1, min dday (days_in_month (t / 12) (t % 12 + 1))⟩

/-- Modelled from the spec: the `ukcalendar` primitive `shift_month(d, n)`,
which shifts by `n` calendar months clamping the day to the end of the
target month. -/
def shift_month (d : Date) (n : ℤ) : Date :=
  monthsToDate (12 * d.year + (d.month - 1) + n) d.day

theorem toRD_monthsToDate (t dday : ℤ) :
    toRD (monthsToDate t dday)
      = civilMonthStart (t - 2)
        + min dday (days_in_month (t / 12) (t % 12 + 1)) - 1 := by
  unfold toRD monthsToDate
  have h : 12 * (t / 12) + (t % 12 + 1) - 3 = t - 2 := by omega
  simp only [h]

/-- Shifting any date six months back strictly decreases its day number. -/
theorem toRD_shift_month_lt (d : Date) :
    toRD (shift_month d (-6)) < toRD d := by
  unfold shift_month
  rw [toRD_monthsToDate]
  have h6 := civilMonthStart_step6 (12 * d.year + (d.month - 1) + -6 - 2)
  have harg : 12 * d.year + (d.month - 1) + -6 - 2 + 6 = 12 * d.year + d.month - 3 := by ring
  rw [harg] at h6
  have hb := days_in_month_bounds ((12 * d.year + (d.month - 1) + -6) / 12)
      ((12 * d.year + (d.month - 1) + -6) % 12 + 1)
  unfold toRD
  omega

/-- Six linear months earlier with the same nominal day is strictly earlier. -/
theorem toRD_monthsToDate_lt (t dday : ℤ) :
    toRD (monthsToDate (t - 6) dday) < toRD (monthsToDate t dday) := by
  rw [toRD_monthsToDate, toRD_monthsToDate]
  have h6 := civilMonthStart_step6 (t - 6 - 2)
  have harg : t - 6 - 2 + 6 = t - 2 := by ring
  rw [harg] at h6
  have hb1 := days_in_month_bounds ((t - 6) / 12) ((t - 6) % 12 + 1)
  have hb2 := days_in_month_bounds (t / 12) (t % 12 + 1)
  omega

/-! ## Business days (weekends plus a supplied bank-holiday list)

Day numbers are used directly: `toRD ⟨1970, 1, 1⟩ = 719468` was a Thursday,
so `toRD d % 7 = 3` is a Saturday and `4` a Sunday.  The bank-holiday list
is an external input, given as a list of day numbers. -/

/-- Modelled from the spec: a day is a business day when it is neither a
weekend day nor in the supplied UK bank-holiday list. -/
def isBusinessDay (hol : List ℤ) (r : ℤ) : Bool :=
  !(r % 7 == 3 || r % 7 == 4 || hol.contains r)

/-- Modelled from the spec: the `ukcalendar` primitive `prev_business_day`,
the latest business day strictly before `r` (searching at most `fuel` days
back; the UK calendar never has anything near a year of consecutive
non-business days). -/
def prev_business_day (hol : List ℤ) : ℕ → ℤ → ℤ
  | 0, r => r - 1
  | fuel + 1, r => if isBusinessDay hol (r - 1) then r - 1 else prev_business_day hol fuel (r - 1)

/-- `Gilt.ex_dividend_date`: the 7th previous business day before the coupon
date, as a day number. -/
def ex_dividend_date (hol : List ℤ) (coupon_date : Date) : ℤ :=
  (prev_business_day hol 366)^[7] (toRD coupon_date)

/-! ## Conventional gilts: data model and coupon schedule -/

/-- The fields of `Gilt` used by the pricing arithmetic (`name` and `isin`
play no part in it). -/
structure Gilt where
  coupon : ℚ
  maturity : Date
  issue_date : Date

/-- `Gilt.min_coupon_days`. -/
def min_coupon_days : ℤ := 60

/-- The `k`-th coupon-date candidate generated by `Gilt.coupon_dates`:
the maturity itself for `k = 0`, else `shift_month(maturity, -6k)`. -/
def cand (g : Gilt) (k : ℕ) : Date :=
  if k = 0 then g.maturity else shift_month g.maturity (-(6 * (k : ℤ)))

theorem cand_succ (g : Gilt) (k : ℕ) :
    cand g (k + 1)
      = monthsToDate (12 * g.maturity.year + (g.maturity.month - 1) - (6 * (k : ℤ) + 6))
          g.maturity.day := by
  unfold cand shift_month
  simp only [Nat.add_eq_zero, one_ne_zero, and_false, if_false]
  congr 1

theorem toRD_cand_lt (g : Gilt) (k : ℕ) :
    toRD (cand g (k + 1)) < toRD (cand g k) := by
  rw [cand_succ]
  rcases Nat.eq_zero_or_pos k with hk | hk
  · subst hk
    have h0 : cand g 0 = g.maturity := rfl
    rw [h0]
    have h : 12 * g.maturity.year + (g.maturity.month - 1) - (6 * ((0 : ℕ) : ℤ) + 6)
        = 12 * g.maturity.year + (g.maturity.month - 1) + -6 := by push_cast; ring
    rw [h]
    exact toRD_shift_month_lt g.maturity
  · obtain ⟨j, rfl⟩ := Nat.exists_eq_add_of_lt hk
    rw [cand_succ]
    have h : 12 * g.maturity.year + (g.maturity.month - 1) - (6 * ((0 + j + 1 : ℕ) : ℤ) + 6)
        = (12 * g.maturity.year + (g.maturity.month - 1) - (6 * ((0 + j : ℕ) : ℤ) + 6)) - 6 := by
      push_cast; ring
    rw [h]
    exact toRD_monthsToDate_lt _ _

/-- Strict antitonicity of the candidate sequence. -/
theorem toRD_cand_lt_of_lt (g : Gilt) {j k : ℕ} (h : j < k) :
    toRD (cand g k) < toRD (cand g j) := by
  induction k with
  | zero => omega
  | succ n ih =>
    rcases Nat.lt_succ_iff_lt_or_eq.mp h with h' | h'
    · exact lt_trans (toRD_cand_lt g n) (ih h')
    · subst h'
      exact toRD_cand_lt g j

/-- The exit condition of the `Gilt.coupon_dates` loop at candidate `k`:
the loop stops by `break` when the candidate falls strictly before the
settlement date, or by the `while` test when the candidate is within
`min_coupon_days` of the issue date. -/
def candExit (g : Gilt) (s : Date) (k : ℕ) : Prop :=
  toRD (cand g k) < toRD s ∨ daysBetween (cand g k) g.issue_date < min_coupon_days

instance (g : Gilt) (s : Date) (k : ℕ) : Decidable (candExit g s k) := by
  unfold candExit; infer_instance

/-- The loop body of `Gilt.coupon_dates`.  `k` is Python's `periods`, `acc`
the accumulated `next_coupon_dates` (consing as the candidates descend
produces directly the ascending order Python obtains by a final
`reverse`).  The fuel only serves Lean's termination; `coupon_dates`
supplies enough for the loop to run to its Python exit. -/
def coupon_dates_aux (g : Gilt) (s : Date) : ℕ → ℕ → List Date → Option (Date × List Date)
  | 0, _, _ => none
  | fuel + 1, k, acc =>
    if min_coupon_days ≤ daysBetween (cand g k) g.issue_date then
      if toRD (cand g (k + 1)) < toRD s then some (cand g (k + 1), cand g k :: acc)
      else coupon_dates_aux g s fuel (k + 1) (cand g k :: acc)
    else some (cand g k, acc)

/-- `Gilt.coupon_dates`: walk back from maturity in 6-month steps, returning
the last candidate strictly before settlement (or the first candidate below
the 60-day threshold) together with the ascending list of candidates seen. -/
def Gilt.coupon_dates (g : Gilt) (s : Date) : Option (Date × List Date) :=
  coupon_dates_aux g s ((toRD g.maturity - toRD g.issue_date).toNat + 2) 0 []

/-- `Gilt.prev_next_coupon_date`; `none` models the `IndexError` Python
would raise on an empty `next_coupon_dates`. -/
def Gilt.prev_next_coupon_date (g : Gilt) (s : Date) : Option (Date × Date) :=
  match g.coupon_dates s with
  | none => none
  | some (prev, nexts) =>
    match nexts with
    | [] => none
    | next :: _ => some (prev, next)

/-- The fuel given to `coupon_dates_aux` is enough: the candidates strictly
descend, so the loop exits before the fuel runs out. -/
theorem coupon_dates_aux_isSome (g : Gilt) (s : Date) :
    ∀ fuel k acc, (toRD (cand g k) - toRD g.issue_date).toNat < fuel →
      (coupon_dates_aux g s fuel k acc).isSome := by
  intro fuel
  induction fuel with
  | zero => omega
  | succ n ih =>
    intro k acc hm
    unfold coupon_dates_aux
    split
    · split
      · rfl
      · apply ih
        have hlt := toRD_cand_lt g k
        unfold min_coupon_days daysBetween at *
        omega
    · rfl

theorem coupon_dates_isSome (g : Gilt) (s : Date) : (g.coupon_dates s).isSome := by
  apply coupon_dates_aux_isSome
  have : cand g 0 = g.maturity := rfl
  rw [this]
  omega

/-- Full characterisation of the `Gilt.coupon_dates` loop from position `k`:
it runs to the least exit index `K ≥ k` and returns the `K`-th candidate as
`prev_coupon_date` with the candidates `k, …, K-1` prepended (ascending) to
the accumulator. -/
theorem coupon_dates_aux_spec (g : Gilt) (s : Date) :
    ∀ fuel k acc, (toRD (cand g k) - toRD g.issue_date).toNat < fuel →
      ¬ toRD (cand g k) < toRD s →
      ∃ K : ℕ, k ≤ K ∧ (∀ j, k ≤ j → j < K → ¬ candExit g s j) ∧ candExit g s K ∧
        coupon_dates_aux g s fuel k acc
          = some (cand g K, ((List.range' k (K - k)).map (cand g)).reverse ++ acc) := by
  intro fuel
  induction fuel with
  | zero => omega
  | succ n ih =>
    intro k acc hm hks
    unfold coupon_dates_aux
    by_cases hth : min_coupon_days ≤ daysBetween (cand g k) g.issue_date
    · rw [if_pos hth]
      by_cases hbr : toRD (cand g (k + 1)) < toRD s
      · rw [if_pos hbr]
        refine ⟨k + 1, Nat.le_succ k, ?_, Or.inl hbr, ?_⟩
        · intro j hj1 hj2
          have hjk : j = k := by omega
          subst hjk
          unfold candExit
          push_neg
          exact ⟨by omega, by unfold min_coupon_days at hth ⊢; omega⟩
        · have hr : k + 1 - k = 1 := by omega
          rw [hr, List.range'_succ]
          simp
      · rw [if_neg hbr]
        have hm' : (toRD (cand g (k + 1)) - toRD g.issue_date).toNat < n := by
          have hlt := toRD_cand_lt g k
          unfold min_coupon_days daysBetween at *
          omega
        obtain ⟨K, hK1, hK2, hK3, hK4⟩ := ih (k + 1) (cand g k :: acc) hm' hbr
        refine ⟨K, by omega, ?_, hK3, ?_⟩
        · intro j hj1 hj2
          rcases Nat.eq_or_lt_of_le hj1 with hjk | hjk
          · subst hjk
            unfold candExit
            push_neg
            exact ⟨by omega, by unfold min_coupon_days at hth ⊢; omega⟩
          · exact hK2 j hjk hj2
        · rw [hK4]
          have hr : K - k = (K - (k + 1)) + 1 := by omega
          rw [hr, List.range'_succ]
          simp
    · rw [if_neg hth]
      refine ⟨k, le_refl k, by omega, ?_, ?_⟩
      · unfold candExit
        right
        unfold min_coupon_days at hth ⊢
        omega
      · have hr : k - k = 0 := by omega
        rw [hr]
        simp

/-- `Gilt.coupon_dates` at any settlement not after maturity: the returned
pair is the least-exit-index characterisation starting from the maturity. -/
theorem coupon_dates_spec (g : Gilt) (s : Date) (hs : toRD s ≤ toRD g.maturity) :
    ∃ K : ℕ, (∀ j, j < K → ¬ candExit g s j) ∧ candExit g s K ∧
      g.coupon_dates s = some (cand g K, ((List.range' 0 K).map (cand g)).reverse) := by
  have h0 : cand g 0 = g.maturity := rfl
  have hinv : ¬ toRD (cand g 0) < toRD s := by rw [h0]; omega
  have hm : (toRD (cand g 0) - toRD g.issue_date).toNat
      < (toRD g.maturity - toRD g.issue_date).toNat + 2 := by rw [h0]; omega
  obtain ⟨K, _, hK2, hK3, hK4⟩ :=
    coupon_dates_aux_spec g s ((toRD g.maturity - toRD g.issue_date).toNat + 2) 0 [] hm hinv
  refine ⟨K, fun j hj => hK2 j (Nat.zero_le j) hj, hK3, ?_⟩
  unfold Gilt.coupon_dates
  rw [hK4]
  simp

/-- Facts about a successful `Gilt.coupon_dates` return: every returned next
coupon date is on or after settlement and above the 60-day threshold, and is
strictly after the returned previous coupon date. -/
theorem coupon_dates_facts (g : Gilt) (s : Date) (hs : toRD s ≤ toRD g.maturity)
    {prev : Date} {L : List Date} (h : g.coupon_dates s = some (prev, L)) :
    ∀ d ∈ L, toRD s ≤ toRD d ∧ min_coupon_days ≤ daysBetween d g.issue_date ∧
      toRD prev < toRD d := by
  obtain ⟨K, hK2, _, hK4⟩ := coupon_dates_spec g s hs
  rw [h] at hK4
  injection hK4 with hK4
  injection hK4 with hprev hL
  intro d hd
  rw [hL, List.mem_reverse, List.mem_map] at hd
  obtain ⟨j, hj, rfl⟩ := hd
  rw [List.mem_range'] at hj
  obtain ⟨i, hi, rfl⟩ := hj
  have hne := hK2 (0 + 1 * i) (by omega)
  unfold candExit at hne
  push_neg at hne
  refine ⟨by omega, by omega, ?_⟩
  rw [hprev]
  exact toRD_cand_lt_of_lt g (by omega)

/-! ## Conventional gilt pricing -/

/-- The three first-dividend-period classes (`SHORT, STANDARD, LONG = -1, 0, 1`). -/
inductive Period where
  | standard : Period
  | short : Period
  | long : Period
deriving DecidableEq, Repr

/-- `Gilt._period`: classify the first dividend period from the previous
coupon date. -/
def Gilt.period (g : Gilt) (prev_coupon_date : Date) : Period :=
  if min_coupon_days ≤ daysBetween prev_coupon_date g.issue_date then .standard
  else if leD prev_coupon_date g.issue_date then .short
  else .long

/-- `Gilt.accrued_interest` (DMO day-count rules with the ex-dividend window
and the short/long first-period cases).  `none` models the `IndexError`
Python would raise when `next_coupon_dates` is empty. -/
def Gilt.accrued_interest (hol : List ℤ) (g : Gilt) (s : Date) : Option ℚ :=
  match g.coupon_dates s with
  | none => none
  | some (prev, nexts) =>
    match nexts with
    | [] => none
    | next :: _ =>
      let dividend : ℚ := g.coupon / 2
      let full_coupon_days : ℚ := (daysBetween next prev : ℚ)
      let xd := ex_dividend_date hol next
      let ai : ℚ :=
        match g.period prev with
        | .standard =>
          let interest_days : ℚ := (daysBetween s prev : ℚ)
          if toRD s > xd then interest_days / full_coupon_days - 1
          else interest_days / full_coupon_days
        | .short =>
          let interest_days : ℚ := (daysBetween s g.issue_date : ℚ)
          let coupon_days : ℚ := (daysBetween next g.issue_date : ℚ)
          if toRD s ≤ xd then interest_days / full_coupon_days
          else (interest_days - coupon_days) / full_coupon_days
        | .long =>
          let prev_prev := shift_month prev (-6)
          let prev_full_coupon_days : ℚ := (daysBetween prev prev_prev : ℚ)
          if toRD s < toRD prev then
            (daysBetween s g.issue_date : ℚ) / prev_full_coupon_days
          else if toRD s ≤ xd then
            (daysBetween prev g.issue_date : ℚ) / prev_full_coupon_days
              + (daysBetween s prev : ℚ) / full_coupon_days
          else (daysBetween s prev : ℚ) / full_coupon_days - 1
      some (ai * dividend)

/-- `Gilt.dirty_price`: clean plus accrued. -/
def Gilt.dirty_price (hol : List ℤ) (g : Gilt) (clean_price : ℚ) (s : Date) : Option ℚ :=
  (g.accrued_interest hol s).map (fun ai => clean_price + ai)

/-- `Gilt.clean_price`: dirty minus accrued. -/
def Gilt.clean_price (hol : List ℤ) (g : Gilt) (dirty_price : ℚ) (s : Date) : Option ℚ :=
  (g.accrued_interest hol s).map (fun ai => dirty_price - ai)

/-- `Gilt.cash_flows`: the remaining coupon payments (first one scaled in a
short/long first period, dropped inside the ex-dividend window) and the par
redemption. -/
def Gilt.cash_flows (hol : List ℤ) (g : Gilt) (s : Date) : Option (List (Date × ℚ)) :=
  if toRD s > ex_dividend_date hol g.maturity then some []
  else match g.coupon_dates s with
  | none => none
  | some (prev, nexts) =>
    match nexts with
    | [] => none
    | n0 :: rest =>
      let xd := ex_dividend_date hol n0
      let head_transactions : List (Date × ℚ) :=
        if toRD s > xd then []
        else match g.period prev with
          | .standard => [(n0, g.coupon / 2)]
          | .short =>
            let r : ℚ := (daysBetween n0 g.issue_date : ℚ) / (daysBetween n0 prev : ℚ)
            [(n0, r * g.coupon / 2)]
          | .long =>
            let prev_prev := shift_month prev (-6)
            let r : ℚ :=
              (daysBetween prev g.issue_date : ℚ) / (daysBetween prev prev_prev : ℚ) + 1
            [(n0, r * g.coupon / 2)]
      some (head_transactions ++ rest.map (fun d => (d, g.coupon / 2))
        ++ [(g.maturity, (100 : ℚ))])

/-- `Gilt.ytm`.  `pw` is real exponentiation `x ** e` and `nsolve` the
`scipy.optimize.newton` root finder, both external numeric primitives.
`none` models an empty `next_coupon_dates`, a failed `assert`, or the
`ZeroDivisionError` of `s/r` when settlement falls on the final coupon
date.  The intermediate tuple is `(prev, next, n, d1, d2)` after the
ex-dividend / first-period adjustments, including the long-period
reframing when settlement has not passed the interpolated coupon date. -/
def Gilt.ytm (hol : List ℤ) (pw : ℚ → ℚ → ℚ) (nsolve : (ℚ → ℚ) → ℚ → ℚ)
    (g : Gilt) (P : ℚ) (s : Date) : Option ℚ :=
  match g.coupon_dates s with
  | none => none
  | some (prev0, nexts) =>
    match nexts with
    | [] => none
    | next0 :: rest =>
      let c := g.coupon
      let f : ℚ := 2
      let xd := ex_dividend_date hol next0
      let st : Option (Date × Date × ℕ × ℚ × ℚ) :=
        if toRD s > xd then some (prev0, next0, rest.length, 0, c / f)
        else match g.period prev0 with
        | .standard => some (prev0, next0, rest.length, c / f, c / f)
        | .short =>
          if leD prev0 g.issue_date ∧ leD g.issue_date next0 then
            some (prev0, next0, rest.length,
              c / f * ((daysBetween next0 g.issue_date : ℚ) / (daysBetween next0 prev0 : ℚ)),
              c / f)
          else none
        | .long =>
          let prev_prev := shift_month prev0 (-6)
          let d1' := c / f
            * (1 + (daysBetween prev0 g.issue_date : ℚ) / (daysBetween prev0 prev_prev : ℚ))
          if leD s prev0 then
            if leD prev_prev g.issue_date ∧ leD g.issue_date prev0 then
              some (prev_prev, prev0, rest.length + 1, 0, d1')
            else none
          else some (prev0, next0, rest.length, d1', c / f)
      match st with
      | none => none
      | some (prev, next, n, d1, d2) =>
        if ltD prev s ∧ leD s next then
          let r : ℚ := (daysBetween next s : ℚ)
          let sdays : ℚ := (daysBetween next prev : ℚ)
          if 181 ≤ daysBetween next prev ∧ daysBetween next prev ≤ 184 then
            if 0 < n then
              let fn : ℚ → ℚ := fun v =>
                pw v (r / sdays)
                  * (d1 + d2 * v + c * v ^ 2 / (f * (1 - v)) * (1 - v ^ (n - 1))
                    + 100 * v ^ n) - P
              let v := nsolve fn (1 / (1 + (5 / 100) / f))
              some ((1 / v - 1) * f)
            else
              if daysBetween next s = 0 then none
              else some (f * (pw ((d1 + 100) / P) (sdays / r) - 1))
          else none
        else none

/-! ## Decimal rounding (Python `round`: half to even) -/

/-- Round a rational to the nearest integer, ties to even. -/
def roundHalfEven (x : ℚ) : ℤ :=
  if Int.fract x < 1 / 2 then ⌊x⌋
  else if 1 / 2 < Int.fract x then ⌊x⌋ + 1
  else if ⌊x⌋ % 2 = 0 then ⌊x⌋ else ⌊x⌋ + 1

/-- Python's `round(x, n)` on the exact rational value. -/
def roundDec (x : ℚ) (n : ℕ) : ℚ :=
  (roundHalfEven (x * 10 ^ n) : ℚ) / 10 ^ n

/-! ## Index-linked gilts -/

/-- Modelled from the spec: the RPI series interface — a month-index lookup
and extrapolation from a month index at an assumed forward inflation rate.
Both are abstract inputs to the engine. -/
structure RPISeries where
  lookup_index : Date → ℤ
  extrapolate_from_index : ℤ → ℚ → ℚ

/-- The fields of `IndexLinkedGilt` beyond `Gilt` (the 3- or 8-month lag is
derived from the issue date, as in the constructor). -/
structure IndexLinkedGilt extends Gilt where
  base_rpi : ℚ
  rpi_series : RPISeries

/-- `IndexLinkedGilt.inflation_rate`: the default inflation assumption. -/
def inflation_rate : ℚ := 3 / 100

/-- The indexation lag in months: 3 for issues on or after 2005-09-22, 8
before. -/
def IndexLinkedGilt.lag (g : IndexLinkedGilt) : ℕ :=
  if leD ⟨2005, 9, 22⟩ g.issue_date then 3 else 8

/-- `IndexLinkedGilt.ref_rpi`: for the 3-month lag, linear interpolation of
the two lagged monthly values with the day-of-month weight; for the 8-month
lag, the value lagged from the next coupon date.  Both rounded to 5 decimal
places.  `none` models the failed weight assertion or the `IndexError`
on an empty `next_coupon_dates`. -/
def IndexLinkedGilt.ref_rpi (g : IndexLinkedGilt) (s : Date) (rate : ℚ) : Option ℚ :=
  if g.lag = 3 then
    let month_idx := g.rpi_series.lookup_index s - 3
    let weight : ℚ := ((s.day : ℚ) - 1) / (days_in_month s.year s.month : ℚ)
    if 0 ≤ weight ∧ weight < 1 then
      let rpi0 := g.rpi_series.extrapolate_from_index month_idx rate
      let rpi1 := g.rpi_series.extrapolate_from_index (month_idx + 1) rate
      some (roundDec (rpi0 + weight * (rpi1 - rpi0)) 5)
    else none
  else
    match g.toGilt.prev_next_coupon_date s with
    | none => none
    | some (_, d) =>
      let month_idx := g.rpi_series.lookup_index d - 8
      some (roundDec (g.rpi_series.extrapolate_from_index month_idx rate) 5)

/-- `IndexLinkedGilt.index_ratio`: `ref_rpi / base_rpi`, rounded to 5
decimal places again for the 3-month lag only. -/
def IndexLinkedGilt.index_ratio (g : IndexLinkedGilt) (s : Date) (rate : ℚ) : Option ℚ :=
  (g.ref_rpi s rate).map (fun x =>
    if g.lag = 3 then roundDec (x / g.base_rpi) 5 else x / g.base_rpi)

/-- `IndexLinkedGilt.accrued_interest`: the conventional accrued interest
times the index ratio at settlement (at the default inflation rate). -/
def IndexLinkedGilt.accrued_interest (hol : List ℤ) (g : IndexLinkedGilt) (s : Date) :
    Option ℚ :=
  match g.toGilt.accrued_interest hol s with
  | none => none
  | some ai =>
    match g.index_ratio s inflation_rate with
    | none => none
    | some ir => some (ai * ir)

/-- `IndexLinkedGilt.dirty_price`: a 3-month-lag quote is a real clean price
and is scaled by the index ratio before the (indexed) accrued is added. -/
def IndexLinkedGilt.dirty_price (hol : List ℤ) (g : IndexLinkedGilt) (clean_price : ℚ)
    (s : Date) : Option ℚ :=
  match g.accrued_interest hol s with
  | none => none
  | some ai =>
    if g.lag = 3 then
      match g.index_ratio s inflation_rate with
      | none => none
      | some ir => some (clean_price * ir + ai)
    else some (clean_price + ai)

/-- `IndexLinkedGilt.clean_price`: subtract the (indexed) accrued, and for
the 3-month lag divide by the index ratio back to a real clean price
(`none` also models the `ZeroDivisionError` on a zero index ratio). -/
def IndexLinkedGilt.clean_price (hol : List ℤ) (g : IndexLinkedGilt) (dirty_price : ℚ)
    (s : Date) : Option ℚ :=
  match g.accrued_interest hol s with
  | none => none
  | some ai =>
    if g.lag = 3 then
      match g.index_ratio s inflation_rate with
      | none => none
      | some ir => if ir = 0 then none else some ((dirty_price - ai) / ir)
    else some (dirty_price - ai)

/-- The per-flow indexation of `IndexLinkedGilt.cash_flows`: scale by the
index ratio at the flow's own date and round to 6 decimal places for issues
from 2002 on, else 4. -/
def indexFlow (g : IndexLinkedGilt) (rate : ℚ) (t : Date × ℚ) : Option (Date × ℚ) :=
  match g.index_ratio t.1 rate with
  | none => none
  | some ir => some (t.1, roundDec (t.2 * ir) (if 2002 ≤ g.issue_date.year then 6 else 4))

/-- `IndexLinkedGilt.cash_flows`: the conventional cash flows, each
multiplied by the index ratio at its own date and rounded. -/
def IndexLinkedGilt.cash_flows (hol : List ℤ) (g : IndexLinkedGilt) (s : Date) (rate : ℚ) :
    Option (List (Date × ℚ)) :=
  match g.toGilt.cash_flows hol s with
  | none => none
  | some l => l.mapM (indexFlow g rate)

/-! ## Ladder events -/

/-- `EventKind`, an `IntEnum` whose members are numbered in declaration
order starting at 1. -/
inductive EventKind where
  | CASH_FLOW : EventKind
  | CONSUMPTION : EventKind
  | TAX_YEAR_END : EventKind
  | TAX_PAYMENT : EventKind
deriving DecidableEq, Repr

/-- The `IntEnum` value of an `EventKind`. -/
def EventKind.val : EventKind → ℕ
  | .CASH_FLOW => 1
  | .CONSUMPTION => 2
  | .TAX_YEAR_END => 3
  | .TAX_PAYMENT => 4

/-- The date and kind of a ladder `Event` (the description and LP-expression
operand play no part in the ordering). -/
structure Event where
  date : Date
  kind : EventKind

/-- The sort key `operator.attrgetter("date", "kind")`: lexicographic on
(date, IntEnum value). -/
def eventLe (a b : Event) : Bool :=
  decide (toRD a.date < toRD b.date)
    || (decide (toRD a.date = toRD b.date) && decide (a.kind.val ≤ b.kind.val))

/-- The `events.sort(key=operator.attrgetter("date", "kind"))` step of
`BondLadder.solve`, modelled by the stable `mergeSort` (Python's `sort` is
stable, and a stable sort by a key is unique). -/
def sortEvents (events : List Event) : List Event :=
  events.mergeSort eventLe

/-! ## Claim C10: the coupon schedule is never empty for a gilt of normal life -/

/-- C10: for a gilt whose life is at least the 60-day short-period threshold
and any settlement between issue and maturity, `coupon_dates` returns a
non-empty `next_coupon_dates` list, so `prev_next_coupon_date` (and with it
the accrual, price-conversion and yield routines) never indexes an empty
list. -/
theorem coupon_dates_next_nonempty (g : Gilt) (s : Date)
    (hlife : min_coupon_days ≤ daysBetween g.maturity g.issue_date)
    (h1 : leD g.issue_date s) (h2 : leD s g.maturity) :
    (∃ prev n0 rest, g.coupon_dates s = some (prev, n0 :: rest)) ∧
      (g.prev_next_coupon_date s).isSome := by
  obtain ⟨K, hK2, hK3, hK4⟩ := coupon_dates_spec g s h2
  have hmat : cand g 0 = g.maturity := rfl
  have hK1 : 1 ≤ K := by
    by_contra hcon
    have hK0 : K = 0 := by omega
    subst hK0
    unfold candExit at hK3
    rw [hmat] at hK3
    unfold leD at h2
    rcases hK3 with h | h
    · omega
    · omega
  have hlen : (((List.range' 0 K).map (cand g)).reverse).length = K := by
    rw [List.length_reverse, List.length_map, List.length_range']
  rcases hLL : ((List.range' 0 K).map (cand g)).reverse with _ | ⟨n0, rest⟩
  · rw [hLL] at hlen
    simp at hlen
    omega
  · rw [hLL] at hK4
    refine ⟨⟨cand g K, n0, rest, hK4⟩, ?_⟩
    unfold Gilt.prev_next_coupon_date
    rw [hK4]
    rfl

/-- Witness for C10 at a real gilt (0⅜% T26, settled 2020-12-01). -/
theorem coupon_dates_next_nonempty_witness :
    (min_coupon_days ≤ daysBetween (⟨3/8, ⟨2026, 7, 31⟩, ⟨2020, 10, 16⟩⟩ : Gilt).maturity
        (⟨3/8, ⟨2026, 7, 31⟩, ⟨2020, 10, 16⟩⟩ : Gilt).issue_date) ∧
    ((∃ prev n0 rest, (⟨3/8, ⟨2026, 7, 31⟩, ⟨2020, 10, 16⟩⟩ : Gilt).coupon_dates ⟨2020, 12, 1⟩
        = some (prev, n0 :: rest)) ∧
      ((⟨3/8, ⟨2026, 7, 31⟩, ⟨2020, 10, 16⟩⟩ : Gilt).prev_next_coupon_date
        ⟨2020, 12, 1⟩).isSome) :=
  ⟨by decide,
   coupon_dates_next_nonempty _ _ (by decide) (by decide) (by decide)⟩

/-! ## Claim C2: what `coupon_dates` returns -/

/-- C2 (amended): over `issue_date ≤ s ≤ maturity`, `coupon_dates` returns
a pair `(prev_coupon_date, next_coupon_dates)` such that, among the
candidates `cand g k` (the maturity for `k = 0`, then
`shift_month(maturity, -6k)`), `next_coupon_dates` is *exactly* the set of
candidates that are **on or after** settlement (a candidate equal to the
settlement date is included — not the claim's "strictly after") and at
least 60 days above the issue date, listed in ascending order; and
`prev_coupon_date` is the next candidate after that tail: the latest
candidate **strictly before** settlement (not the claim's "last candidate
not after"), or a candidate below the 60-day threshold when the walk hits
one first. -/
theorem coupon_dates_characterisation (g : Gilt) (s : Date)
    (h1 : leD g.issue_date s) (h2 : leD s g.maturity) :
    ∃ K : ℕ,
      g.coupon_dates s = some (cand g K, ((List.range' 0 K).map (cand g)).reverse) ∧
      (∀ d : Date, d ∈ ((List.range' 0 K).map (cand g)).reverse ↔
        ∃ k : ℕ, d = cand g k ∧ toRD s ≤ toRD (cand g k) ∧
          min_coupon_days ≤ daysBetween (cand g k) g.issue_date) ∧
      (((List.range' 0 K).map (cand g)).reverse).Pairwise ltD ∧
      (toRD (cand g K) < toRD s ∨ daysBetween (cand g K) g.issue_date < min_coupon_days) ∧
      (∀ j : ℕ, toRD (cand g j) < toRD s → toRD (cand g j) ≤ toRD (cand g K)) := by
  obtain ⟨K, hK2, hK3, hK4⟩ := coupon_dates_spec g s h2
  have hK3' : toRD (cand g K) < toRD s ∨
      daysBetween (cand g K) g.issue_date < min_coupon_days := hK3
  refine ⟨K, hK4, ?_, ?_, hK3', ?_⟩
  · intro d
    constructor
    · intro hd
      rw [List.mem_reverse, List.mem_map] at hd
      obtain ⟨j, hj, rfl⟩ := hd
      rw [List.mem_range'] at hj
      obtain ⟨i, hi, rfl⟩ := hj
      have hne := hK2 (0 + 1 * i) (by omega)
      unfold candExit at hne
      push_neg at hne
      exact ⟨0 + 1 * i, rfl, by omega, by omega⟩
    · rintro ⟨k, rfl, hks, hkth⟩
      rw [List.mem_reverse, List.mem_map]
      refine ⟨k, ?_, rfl⟩
      rw [List.mem_range']
      have hkK : k < K := by
        by_contra hcon
        push_neg at hcon
        rcases Nat.eq_or_lt_of_le hcon with rfl | hKk
        · rcases hK3' with hlt | hth
          · omega
          · omega
        · have hdrop := toRD_cand_lt_of_lt g hKk
          rcases hK3' with hlt | hth
          · omega
          · unfold daysBetween at hth hkth
            omega
      exact ⟨k, hkK, by omega⟩
  · rw [List.pairwise_reverse, List.pairwise_map]
    have hr := List.pairwise_lt_range' 0 K
    refine hr.imp ?_
    intro a b hab
    unfold ltD
    exact toRD_cand_lt_of_lt g hab
  · intro j hj
    by_cases hjK : j < K
    · have h := hK2 j hjK
      unfold candExit at h
      push_neg at h
      omega
    · push_neg at hjK
      rcases Nat.eq_or_lt_of_le hjK with rfl | h
      · exact le_refl _
      · exact le_of_lt (toRD_cand_lt_of_lt g h)

/-- A concrete conventional gilt used in several witnesses: 0⅜% Treasury
Gilt 2026 (issued 2020-10-16, a short first period). -/
def t26 : Gilt := ⟨3/8, ⟨2026, 7, 31⟩, ⟨2020, 10, 16⟩⟩

/-- A concrete conventional gilt with a long history: 4% maturing
2025-07-31, issued 2020-01-01. -/
def g425 : Gilt := ⟨4, ⟨2025, 7, 31⟩, ⟨2020, 1, 1⟩⟩

/-- C2 counterexample: settling `g425` exactly on the coupon date
2025-01-31, the code returns `next_coupon_dates = [2025-01-31, 2025-07-31]`
— which is *not* the set of candidates strictly after settlement, since it
contains the settlement date itself — and returns 2024-07-31 as
`prev_coupon_date`, which is *not* the last candidate not after settlement:
the candidate `cand g425 1 = 2025-01-31` is not after settlement and is
strictly later than the returned `prev_coupon_date`. -/
theorem coupon_dates_boundary_counterexample :
    g425.coupon_dates ⟨2025, 1, 31⟩
      = some (⟨2024, 7, 31⟩, [⟨2025, 1, 31⟩, ⟨2025, 7, 31⟩]) ∧
    ¬ (∀ d ∈ ([⟨2025, 1, 31⟩, ⟨2025, 7, 31⟩] : List Date),
        ltD (⟨2025, 1, 31⟩ : Date) d) ∧
    cand g425 1 = ⟨2025, 1, 31⟩ ∧
    ¬ ltD ⟨2025, 1, 31⟩ (⟨2025, 1, 31⟩ : Date) ∧
    leD ⟨2025, 1, 31⟩ (⟨2025, 1, 31⟩ : Date) ∧
    ltD ⟨2024, 7, 31⟩ (⟨2025, 1, 31⟩ : Date) ∧
    leD g425.issue_date ⟨2025, 1, 31⟩ ∧ leD ⟨2025, 1, 31⟩ g425.maturity := by
  refine ⟨by decide, by decide, by decide, by decide, by decide, by decide, by decide,
    by decide⟩

/-- Witness for C2 at `t26` settled 2020-12-01. -/
theorem coupon_dates_characterisation_witness :
    leD t26.issue_date ⟨2020, 12, 1⟩ ∧ leD ⟨2020, 12, 1⟩ t26.maturity ∧
    (∃ K : ℕ,
      t26.coupon_dates ⟨2020, 12, 1⟩
        = some (cand t26 K, ((List.range' 0 K).map (cand t26)).reverse) ∧
      (∀ d : Date, d ∈ ((List.range' 0 K).map (cand t26)).reverse ↔
        ∃ k : ℕ, d = cand t26 k ∧ toRD ⟨2020, 12, 1⟩ ≤ toRD (cand t26 k) ∧
          min_coupon_days ≤ daysBetween (cand t26 k) t26.issue_date) ∧
      (((List.range' 0 K).map (cand t26)).reverse).Pairwise ltD ∧
      (toRD (cand t26 K) < toRD ⟨2020, 12, 1⟩ ∨
        daysBetween (cand t26 K) t26.issue_date < min_coupon_days) ∧
      (∀ j : ℕ, toRD (cand t26 j) < toRD ⟨2020, 12, 1⟩ →
        toRD (cand t26 j) ≤ toRD (cand t26 K))) :=
  ⟨by decide, by decide,
   coupon_dates_characterisation t26 ⟨2020, 12, 1⟩ (by decide) (by decide)⟩

/-! ## Claim C1: the accrued-interest formula -/

/-- The accrued fraction exactly as the spec states it, in terms of the
previous/next coupon dates: STANDARD `interest_days/full` less 1 past the
ex-dividend date; SHORT `(s - issue)/full`, past xd
`((s - issue) - (next - issue))/full`; LONG over `prev_full =
(prev - shift_month(prev, -6)).days`, split at `prev_coupon` and at xd. -/
def specAccruedFraction (hol : List ℤ) (g : Gilt) (prev next s : Date) : ℚ :=
  let full : ℚ := (daysBetween next prev : ℚ)
  let xd := ex_dividend_date hol next
  match g.period prev with
  | .standard =>
    if toRD s > xd then (daysBetween s prev : ℚ) / full - 1
    else (daysBetween s prev : ℚ) / full
  | .short =>
    if toRD s ≤ xd then (daysBetween s g.issue_date : ℚ) / full
    else ((daysBetween s g.issue_date : ℚ) - (daysBetween next g.issue_date : ℚ)) / full
  | .long =>
    let prev_prev := shift_month prev (-6)
    let prev_full : ℚ := (daysBetween prev prev_prev : ℚ)
    if toRD s < toRD prev then (daysBetween s g.issue_date : ℚ) / prev_full
    else if toRD s ≤ xd then
      (daysBetween prev g.issue_date : ℚ) / prev_full + (daysBetween s prev : ℚ) / full
    else (daysBetween s prev : ℚ) / full - 1

/-- C1: for any gilt with a non-negative coupon and settlement between
issue and maturity (with the coupon schedule non-degenerate, so the Python
code does not raise), `accrued_interest` equals the spec's accrued fraction
times the half-coupon dividend. -/
theorem accrued_interest_eq_spec (hol : List ℤ) (g : Gilt) (s : Date)
    (prev next : Date) (rest : List Date)
    (hc : 0 ≤ g.coupon) (h1 : leD g.issue_date s) (h2 : leD s g.maturity)
    (h : g.coupon_dates s = some (prev, next :: rest)) :
    g.accrued_interest hol s = some (specAccruedFraction hol g prev next s * (g.coupon / 2)) := by
  unfold Gilt.accrued_interest specAccruedFraction
  rw [h]

/-- Witness for C1: `t26` settled 2020-12-01 sits in a SHORT first period;
the accrued interest evaluates to `(46/184) × (0.375/2) = 3/64`. -/
theorem accrued_interest_eq_spec_witness :
    0 ≤ t26.coupon ∧ leD t26.issue_date ⟨2020, 12, 1⟩ ∧ leD ⟨2020, 12, 1⟩ t26.maturity ∧
    t26.accrued_interest [] ⟨2020, 12, 1⟩
      = some (specAccruedFraction [] t26 ⟨2020, 7, 31⟩ ⟨2021, 1, 31⟩ ⟨2020, 12, 1⟩
          * (t26.coupon / 2)) ∧
    t26.accrued_interest [] ⟨2020, 12, 1⟩ = some (3 / 64) :=
  ⟨by decide, by decide, by decide,
   accrued_interest_eq_spec [] t26 ⟨2020, 12, 1⟩ ⟨2020, 7, 31⟩ ⟨2021, 1, 31⟩
     [⟨2021, 7, 31⟩, ⟨2022, 1, 31⟩, ⟨2022, 7, 31⟩, ⟨2023, 1, 31⟩, ⟨2023, 7, 31⟩,
      ⟨2024, 1, 31⟩, ⟨2024, 7, 31⟩, ⟨2025, 1, 31⟩, ⟨2025, 7, 31⟩, ⟨2026, 1, 31⟩,
      ⟨2026, 7, 31⟩]
     (by decide) (by decide) (by decide) (by decide),
   by decide⟩

/-! ## Claim C6: undiscounted cash flows sum to at least par -/

/-- C6: for a conventional gilt with a non-negative coupon, settled between
issue and maturity and not after the final ex-dividend date, the amounts of
`cash_flows` sum (undiscounted) to at least the par redemption of 100. -/
theorem cash_flows_sum_ge_par (hol : List ℤ) (g : Gilt) (s : Date) (l : List (Date × ℚ))
    (hc : 0 ≤ g.coupon) (h1 : leD g.issue_date s) (h2 : leD s g.maturity)
    (hxd : ¬ toRD s > ex_dividend_date hol g.maturity)
    (hl : g.cash_flows hol s = some l) :
    100 ≤ (l.map Prod.snd).sum := by
  unfold Gilt.cash_flows at hl
  rw [if_neg hxd] at hl
  rcases hcd : g.coupon_dates s with _ | ⟨prev, nexts⟩ <;> rw [hcd] at hl
  · exact absurd hl (by simp)
  · rcases nexts with _ | ⟨n0, rest⟩
    · exact absurd hl (by simp)
    · have hfacts := coupon_dates_facts g s h2 hcd n0 (List.mem_cons_self n0 rest)
      injection hl with hl
      subst hl
      simp only [List.map_append, List.sum_append, List.map_cons, List.map_nil,
        List.sum_cons, List.sum_nil]
      have hrest : 0 ≤ ((rest.map (fun d => (d, g.coupon / 2))).map Prod.snd).sum := by
        apply List.sum_nonneg
        intro x hx
        simp only [List.map_map, List.mem_map] at hx
        obtain ⟨d, _, rfl⟩ := hx
        show (0 : ℚ) ≤ g.coupon / 2
        positivity
      split
      · simp only [List.map_nil, List.sum_nil]
        linarith
      · rcases hper : g.period prev with _ | _ | _ <;> simp only [hper] <;>
          simp only [List.map_cons, List.map_nil, List.sum_cons, List.sum_nil]
        · linarith
        · have hnum : (0 : ℤ) ≤ daysBetween n0 g.issue_date := by
            have hsn := hfacts.1
            unfold leD at h1
            unfold daysBetween
            omega
          have hden : (0 : ℤ) ≤ daysBetween n0 prev := by
            have := hfacts.2.2
            unfold daysBetween at this ⊢
            omega
          have hnum' : (0 : ℚ) ≤ (daysBetween n0 g.issue_date : ℚ) := by exact_mod_cast hnum
          have hden' : (0 : ℚ) ≤ (daysBetween n0 prev : ℚ) := by exact_mod_cast hden
          have hr := div_nonneg hnum' hden'
          have := mul_nonneg hr hc
          linarith
        · unfold Gilt.period at hper
          split_ifs at hper with hA hB
          have hlt := toRD_shift_month_lt prev
          have hnum : (0 : ℤ) ≤ daysBetween prev g.issue_date := by
            unfold leD at hB
            unfold daysBetween
            omega
          have hden : (0 : ℤ) ≤ daysBetween prev (shift_month prev (-6)) := by
            unfold daysBetween
            omega
          have hnum' : (0 : ℚ) ≤ (daysBetween prev g.issue_date : ℚ) := by exact_mod_cast hnum
          have hden' : (0 : ℚ) ≤ (daysBetween prev (shift_month prev (-6)) : ℚ) := by
            exact_mod_cast hden
          have hr0 := div_nonneg hnum' hden'
          have hr : (0 : ℚ) ≤ (daysBetween prev g.issue_date : ℚ)
              / (daysBetween prev (shift_month prev (-6)) : ℚ) + 1 := by linarith
          have hmc := mul_nonneg hr hc
          linarith

/-- Witness for C6: `g425` settled 2024-12-02 has flows 2, 2 and 100,
summing to 104 ≥ 100. -/
theorem cash_flows_sum_ge_par_witness :
    0 ≤ g425.coupon ∧ leD g425.issue_date ⟨2024, 12, 2⟩ ∧ leD ⟨2024, 12, 2⟩ g425.maturity ∧
    ¬ toRD ⟨2024, 12, 2⟩ > ex_dividend_date [] g425.maturity ∧
    g425.cash_flows [] ⟨2024, 12, 2⟩
      = some ([(⟨2025, 1, 31⟩, 2), (⟨2025, 7, 31⟩, 2), (⟨2025, 7, 31⟩, 100)]
          : List (Date × ℚ)) ∧
    100 ≤ ((([(⟨2025, 1, 31⟩, 2), (⟨2025, 7, 31⟩, 2), (⟨2025, 7, 31⟩, 100)]
        : List (Date × ℚ)).map Prod.snd).sum) :=
  ⟨by decide, by decide, by decide, by decide, by decide,
   cash_flows_sum_ge_par [] g425 ⟨2024, 12, 2⟩
     ([(⟨2025, 1, 31⟩, 2), (⟨2025, 7, 31⟩, 2), (⟨2025, 7, 31⟩, 100)] : List (Date × ℚ))
     (by decide) (by decide) (by decide) (by decide) (by decide)⟩

/-! ## Claims C3 and C4: dirty/clean conversions -/

/-- A constant RPI series (every month reads 300), for concrete witnesses. -/
def rs300 : RPISeries := ⟨fun _ => 0, fun _ _ => 300⟩

/-- A concrete 3-month-lag index-linked gilt: 4% maturing 2025-07-31,
issued 2020-01-01 (≥ 2005-09-22, so lag 3), base RPI 150 — its index
ratio against `rs300` is exactly 2. -/
def il3 : IndexLinkedGilt := ⟨⟨4, ⟨2025, 7, 31⟩, ⟨2020, 1, 1⟩⟩, 150, rs300⟩

/-- C3 counterexample: for the 3-month-lag linker `il3` at settlement
2024-12-02 and quoted (real) clean price 100, the dirty price is
`100·2 + 62/23` and dirty − accrued = 200 ≠ 100: subtracting the accrued
interest from the dirty price returns the *inflation-adjusted* clean
price, not the quoted one. -/
theorem dirty_minus_accrued_counterexample :
    il3.dirty_price [] 100 ⟨2024, 12, 2⟩ = some (4662 / 23) ∧
    il3.accrued_interest [] ⟨2024, 12, 2⟩ = some (62 / 23) ∧
    (4662 / 23 : ℚ) - 62 / 23 ≠ 100 := by
  refine ⟨by decide, by decide, by decide⟩

/-- C3 (amended): dirty − accrued = clean for conventional gilts and
8-month-lag linkers (whose quotes are nominal); for a 3-month-lag linker
(quoted in real terms) dirty − accrued = clean × index_ratio. -/
theorem dirty_minus_accrued (hol : List ℤ) (s : Date) :
    (∀ (g : Gilt) (clean ai : ℚ), g.accrued_interest hol s = some ai →
      g.dirty_price hol clean s = some (clean + ai) ∧ clean + ai - ai = clean) ∧
    (∀ (il : IndexLinkedGilt) (clean ai : ℚ), il.lag ≠ 3 →
      il.accrued_interest hol s = some ai →
      il.dirty_price hol clean s = some (clean + ai) ∧ clean + ai - ai = clean) ∧
    (∀ (il : IndexLinkedGilt) (clean ai ir : ℚ), il.lag = 3 →
      il.accrued_interest hol s = some ai →
      il.index_ratio s inflation_rate = some ir →
      il.dirty_price hol clean s = some (clean * ir + ai) ∧
        clean * ir + ai - ai = clean * ir) := by
  refine ⟨?_, ?_, ?_⟩
  · intro g clean ai hai
    unfold Gilt.dirty_price
    rw [hai]
    exact ⟨rfl, by ring⟩
  · intro il clean ai hlag hai
    unfold IndexLinkedGilt.dirty_price
    simp only [hai]
    rw [if_neg hlag]
    exact ⟨rfl, by ring⟩
  · intro il clean ai ir hlag hai hir
    unfold IndexLinkedGilt.dirty_price
    simp only [hai]
    rw [if_pos hlag]
    simp only [hir]
    exact ⟨trivial, by ring⟩

/-- Witness for the amended C3 at `t26` (conventional) and `il3`
(3-month lag). -/
theorem dirty_minus_accrued_witness :
    (t26.accrued_interest [] ⟨2020, 12, 1⟩ = some (3 / 64) ∧
      t26.dirty_price [] 95 ⟨2020, 12, 1⟩ = some (95 + 3 / 64) ∧
      (95 : ℚ) + 3 / 64 - 3 / 64 = 95) ∧
    (il3.lag = 3 ∧ il3.accrued_interest [] ⟨2024, 12, 2⟩ = some (62 / 23) ∧
      il3.index_ratio ⟨2024, 12, 2⟩ inflation_rate = some 2 ∧
      il3.dirty_price [] 100 ⟨2024, 12, 2⟩ = some (100 * 2 + 62 / 23) ∧
      (100 : ℚ) * 2 + 62 / 23 - 62 / 23 = 100 * 2) :=
  ⟨⟨by decide,
    (dirty_minus_accrued [] ⟨2020, 12, 1⟩).1 t26 95 (3 / 64) (by decide)⟩,
   ⟨by decide, by decide, by decide,
    (dirty_minus_accrued [] ⟨2024, 12, 2⟩).2.2 il3 100 (62 / 23) 2 (by decide) (by decide)
      (by decide)⟩⟩

/-- C4: converting a clean price to dirty and back with the same settlement
returns the original quote — exactly, hence within the claimed 1e-9 — for
conventional gilts and for index-linked gilts of either lag (for a 3-month
lag the index ratio must be non-zero, or Python's division would raise). -/
theorem clean_dirty_round_trip (hol : List ℤ) (s : Date) :
    (∀ (g : Gilt) (p ai : ℚ), g.accrued_interest hol s = some ai →
      ∃ q, (g.dirty_price hol p s).bind (fun d => g.clean_price hol d s) = some q ∧
        |q - p| ≤ 1 / 10 ^ 9) ∧
    (∀ (il : IndexLinkedGilt) (p ai ir : ℚ), il.accrued_interest hol s = some ai →
      il.index_ratio s inflation_rate = some ir → (il.lag = 3 → ir ≠ 0) →
      ∃ q, (il.dirty_price hol p s).bind (fun d => il.clean_price hol d s) = some q ∧
        |q - p| ≤ 1 / 10 ^ 9) := by
  constructor
  · intro g p ai hai
    refine ⟨p, ?_, by rw [sub_self, abs_zero]; positivity⟩
    unfold Gilt.dirty_price Gilt.clean_price
    rw [hai]
    simp only [Option.map_some', Option.some_bind]
    congr 1
    ring
  · intro il p ai ir hai hir h3
    by_cases hl3 : il.lag = 3
    · have hir0 : ir ≠ 0 := h3 hl3
      refine ⟨p, ?_, by rw [sub_self, abs_zero]; positivity⟩
      unfold IndexLinkedGilt.dirty_price IndexLinkedGilt.clean_price
      simp only [hai, hir, hl3, eq_self_iff_true, if_true, if_neg hir0, Option.some_bind]
      congr 1
      field_simp
    · refine ⟨p, ?_, by rw [sub_self, abs_zero]; positivity⟩
      unfold IndexLinkedGilt.dirty_price IndexLinkedGilt.clean_price
      simp only [hai, hir, if_neg hl3, Option.some_bind]
      congr 1
      ring

/-- Witness for C4 at `t26` (conventional, price 95) and `il3` (3-month
lag, real price 100, index ratio 2). -/
theorem clean_dirty_round_trip_witness :
    (t26.accrued_interest [] ⟨2020, 12, 1⟩ = some (3 / 64) ∧
      ∃ q, (t26.dirty_price [] 95 ⟨2020, 12, 1⟩).bind
          (fun d => t26.clean_price [] d ⟨2020, 12, 1⟩) = some q ∧
        |q - 95| ≤ 1 / 10 ^ 9) ∧
    (il3.accrued_interest [] ⟨2024, 12, 2⟩ = some (62 / 23) ∧
      il3.index_ratio ⟨2024, 12, 2⟩ inflation_rate = some 2 ∧ (2 : ℚ) ≠ 0 ∧
      ∃ q, (il3.dirty_price [] 100 ⟨2024, 12, 2⟩).bind
          (fun d => il3.clean_price [] d ⟨2024, 12, 2⟩) = some q ∧
        |q - 100| ≤ 1 / 10 ^ 9) :=
  ⟨⟨by decide,
    (clean_dirty_round_trip [] ⟨2020, 12, 1⟩).1 t26 95 (3 / 64) (by decide)⟩,
   ⟨by decide, by decide, by decide,
    (clean_dirty_round_trip [] ⟨2024, 12, 2⟩).2 il3 100 (62 / 23) 2 (by decide) (by decide)
      (fun _ => by decide)⟩⟩

/-! ## Claim C7: event ordering in the ladder solve -/

theorem eventLe_trans (a b c : Event) (hab : eventLe a b) (hbc : eventLe b c) :
    eventLe a c := by
  unfold eventLe at *
  simp only [Bool.or_eq_true, Bool.and_eq_true, decide_eq_true_eq] at *
  omega

theorem eventLe_total (a b : Event) : eventLe a b || eventLe b a := by
  unfold eventLe
  simp only [Bool.or_eq_true, Bool.and_eq_true, decide_eq_true_eq]
  omega

/-- C7: the event list sorted in `BondLadder.solve` is ordered by the key
`(date, kind)` — the output of the (stable) sort is pairwise `eventLe`, a
permutation of the input, and the `IntEnum` kind values are ordered
`CASH_FLOW < CONSUMPTION < TAX_YEAR_END < TAX_PAYMENT`, so on equal dates
cash flows are processed before withdrawals, then tax-year ends, then tax
payments. -/
theorem solve_event_ordering (events : List Event) :
    (sortEvents events).Pairwise (fun a b => eventLe a b = true) ∧
    (sortEvents events).Perm events ∧
    EventKind.val .CASH_FLOW < EventKind.val .CONSUMPTION ∧
    EventKind.val .CONSUMPTION < EventKind.val .TAX_YEAR_END ∧
    EventKind.val .TAX_YEAR_END < EventKind.val .TAX_PAYMENT := by
  refine ⟨?_, ?_, by decide, by decide, by decide⟩
  · exact List.sorted_mergeSort eventLe_trans eventLe_total events
  · exact List.mergeSort_perm events eventLe

/-! ## Claim C8: index-linked cash flows -/

/-- Elementwise description of a successful `Option`-valued `mapM`. -/
theorem mapM_option_spec {α β : Type} (f : α → Option β) :
    ∀ (l : List α) (l' : List β), l.mapM f = some l' →
      l'.length = l.length ∧
      ∀ i (hi : i < l'.length) (hi2 : i < l.length),
        f (l.get ⟨i, hi2⟩) = some (l'.get ⟨i, hi⟩) := by
  intro l
  induction l with
  | nil =>
    intro l' h
    simp only [List.mapM_nil, pure, Option.some.injEq] at h
    subst h
    exact ⟨rfl, fun i hi hi2 => absurd hi2 (by simp)⟩
  | cons a t ih =>
    intro l' h
    simp only [List.mapM_cons] at h
    rcases hfa : f a with _ | b <;> rw [hfa] at h
    · exact absurd h (by simp)
    · rcases hmt : t.mapM f with _ | bs <;> rw [hmt] at h
      · exact absurd h (by simp)
      · simp only [Option.pure_def, Option.bind_eq_bind, Option.some_bind,
          Option.some.injEq] at h
        subst h
        obtain ⟨hlen, helem⟩ := ih bs hmt
        refine ⟨by simp [hlen], ?_⟩
        intro i hi hi2
        match i with
        | 0 => exact hfa
        | j + 1 =>
          simp only [List.get_cons_succ]
          exact helem j (by simpa using hi) (by simpa using hi2)

/-- C8: each projected index-linked cash flow is the corresponding
conventional amount times the index ratio at the flow's own date
(extrapolating RPI at the supplied rate; the engine's default is
`inflation_rate = 3/100`), rounded to 6 decimal places for issues from
2002 on and to 4 otherwise. -/
theorem il_cash_flows_indexed (hol : List ℤ) (il : IndexLinkedGilt) (s : Date) (rate : ℚ)
    (l l' : List (Date × ℚ))
    (hconv : il.toGilt.cash_flows hol s = some l)
    (hil : il.cash_flows hol s rate = some l') :
    l'.length = l.length ∧
    (∀ i (hi : i < l'.length) (hi2 : i < l.length), ∃ ir,
      il.index_ratio (l.get ⟨i, hi2⟩).1 rate = some ir ∧
      l'.get ⟨i, hi⟩ = ((l.get ⟨i, hi2⟩).1,
        roundDec ((l.get ⟨i, hi2⟩).2 * ir) (if 2002 ≤ il.issue_date.year then 6 else 4))) ∧
    inflation_rate = 3 / 100 := by
  unfold IndexLinkedGilt.cash_flows at hil
  rw [hconv] at hil
  obtain ⟨hlen, helem⟩ := mapM_option_spec (indexFlow il rate) l l' hil
  refine ⟨hlen, ?_, rfl⟩
  intro i hi hi2
  have h := helem i hi hi2
  unfold indexFlow at h
  rcases hir : il.index_ratio (l.get ⟨i, hi2⟩).1 rate with _ | ir <;> rw [hir] at h
  · exact absurd h (by simp)
  · refine ⟨ir, rfl, ?_⟩
    injection h with h
    exact h.symm

/-- Witness for C8 at `il3` (index ratio 2 everywhere, issue ≥ 2002 so six
decimal places): conventional flows (2, 2, 100) become (4, 4, 200). -/
theorem il_cash_flows_indexed_witness :
    il3.toGilt.cash_flows [] ⟨2024, 12, 2⟩
      = some ([(⟨2025, 1, 31⟩, 2), (⟨2025, 7, 31⟩, 2), (⟨2025, 7, 31⟩, 100)]
          : List (Date × ℚ)) ∧
    il3.cash_flows [] ⟨2024, 12, 2⟩ inflation_rate
      = some ([(⟨2025, 1, 31⟩, 4), (⟨2025, 7, 31⟩, 4), (⟨2025, 7, 31⟩, 200)]
          : List (Date × ℚ)) ∧
    (([(⟨2025, 1, 31⟩, 4), (⟨2025, 7, 31⟩, 4), (⟨2025, 7, 31⟩, 200)]
        : List (Date × ℚ)).length
      = ([(⟨2025, 1, 31⟩, 2), (⟨2025, 7, 31⟩, 2), (⟨2025, 7, 31⟩, 100)]
        : List (Date × ℚ)).length ∧
    (∀ i (hi : i < ([(⟨2025, 1, 31⟩, 4), (⟨2025, 7, 31⟩, 4), (⟨2025, 7, 31⟩, 200)]
        : List (Date × ℚ)).length)
      (hi2 : i < ([(⟨2025, 1, 31⟩, 2), (⟨2025, 7, 31⟩, 2), (⟨2025, 7, 31⟩, 100)]
        : List (Date × ℚ)).length), ∃ ir,
      il3.index_ratio ((([(⟨2025, 1, 31⟩, 2), (⟨2025, 7, 31⟩, 2), (⟨2025, 7, 31⟩, 100)]
        : List (Date × ℚ)).get ⟨i, hi2⟩).1) inflation_rate = some ir ∧
      (([(⟨2025, 1, 31⟩, 4), (⟨2025, 7, 31⟩, 4), (⟨2025, 7, 31⟩, 200)]
        : List (Date × ℚ)).get ⟨i, hi⟩)
        = ((([(⟨2025, 1, 31⟩, 2), (⟨2025, 7, 31⟩, 2), (⟨2025, 7, 31⟩, 100)]
          : List (Date × ℚ)).get ⟨i, hi2⟩).1,
          roundDec (((([(⟨2025, 1, 31⟩, 2), (⟨2025, 7, 31⟩, 2), (⟨2025, 7, 31⟩, 100)]
            : List (Date × ℚ)).get ⟨i, hi2⟩).2) * ir)
            (if 2002 ≤ il3.issue_date.year then 6 else 4))) ∧
    inflation_rate = 3 / 100) :=
  ⟨by decide, by decide,
   il_cash_flows_indexed [] il3 ⟨2024, 12, 2⟩ inflation_rate
     ([(⟨2025, 1, 31⟩, 2), (⟨2025, 7, 31⟩, 2), (⟨2025, 7, 31⟩, 100)] : List (Date × ℚ))
     ([(⟨2025, 1, 31⟩, 4), (⟨2025, 7, 31⟩, 4), (⟨2025, 7, 31⟩, 200)] : List (Date × ℚ))
     (by decide) (by decide)⟩

/-! ## Claim C9: rounding in the index ratio -/

/-- C9: for a 3-month-lag linker the index ratio is `ref_rpi/base_rpi`
rounded *again* to 5 decimal places (on top of `ref_rpi`'s own 5-dp
rounding, made explicit by the last conjunct); for an 8-month-lag linker
the quotient is returned with no extra rounding. -/
theorem index_ratio_rounding (il : IndexLinkedGilt) (s : Date) (rate : ℚ) :
    (il.lag = 3 →
      il.index_ratio s rate
        = (il.ref_rpi s rate).map (fun x => roundDec (x / il.base_rpi) 5)) ∧
    (il.lag = 8 →
      il.index_ratio s rate = (il.ref_rpi s rate).map (fun x => x / il.base_rpi)) ∧
    (∀ x, il.ref_rpi s rate = some x → ∃ raw, x = roundDec raw 5) := by
  refine ⟨?_, ?_, ?_⟩
  · intro h3
    unfold IndexLinkedGilt.index_ratio
    rcases h : il.ref_rpi s rate with _ | x
    · rfl
    · simp only [Option.map_some']
      rw [if_pos h3]
  · intro h8
    have h3 : ¬ il.lag = 3 := by omega
    unfold IndexLinkedGilt.index_ratio
    rcases h : il.ref_rpi s rate with _ | x
    · rfl
    · simp only [Option.map_some']
      rw [if_neg h3]
  · intro x hx
    unfold IndexLinkedGilt.ref_rpi at hx
    by_cases h3 : il.lag = 3
    · rw [if_pos h3] at hx
      simp only [] at hx
      split at hx
      · injection hx with hx
        exact ⟨_, hx.symm⟩
      · exact absurd hx (by simp)
    · rw [if_neg h3] at hx
      rcases hpn : il.toGilt.prev_next_coupon_date s with _ | ⟨p, d⟩ <;> rw [hpn] at hx
      · exact absurd hx (by simp)
      · injection hx with hx
        exact ⟨_, hx.symm⟩

/-- An 8-month-lag index-linked gilt for witnesses: issued 2001-01-01
(before 2005-09-22). -/
def il8 : IndexLinkedGilt := ⟨⟨4, ⟨2025, 7, 31⟩, ⟨2001, 1, 1⟩⟩, 150, rs300⟩

/-- Witness for C9 at `il3` (3-month lag) and `il8` (8-month lag). -/
theorem index_ratio_rounding_witness :
    il3.lag = 3 ∧
    il3.index_ratio ⟨2024, 12, 2⟩ inflation_rate
      = (il3.ref_rpi ⟨2024, 12, 2⟩ inflation_rate).map
          (fun x => roundDec (x / il3.base_rpi) 5) ∧
    il8.lag = 8 ∧
    il8.index_ratio ⟨2024, 12, 2⟩ inflation_rate
      = (il8.ref_rpi ⟨2024, 12, 2⟩ inflation_rate).map (fun x => x / il8.base_rpi) ∧
    il8.index_ratio ⟨2024, 12, 2⟩ inflation_rate = some 2 :=
  ⟨by decide,
   (index_ratio_rounding il3 ⟨2024, 12, 2⟩ inflation_rate).1 (by decide),
   by decide,
   (index_ratio_rounding il8 ⟨2024, 12, 2⟩ inflation_rate).2.1 (by decide),
   by decide⟩

/-! ## Claim C5: the final-period yield formula -/

/-- The "(possibly zeroed or adjusted) next dividend" `d1` of the yield
formula: zero inside the ex-dividend window, else the half-coupon scaled by
the SHORT/LONG first-period factor. -/
def specFinalDividend (hol : List ℤ) (g : Gilt) (prev next s : Date) : ℚ :=
  if toRD s > ex_dividend_date hol next then 0
  else match g.period prev with
    | .standard => g.coupon / 2
    | .short =>
      g.coupon / 2 * ((daysBetween next g.issue_date : ℚ) / (daysBetween next prev : ℚ))
    | .long =>
      g.coupon / 2
        * (1 + (daysBetween prev g.issue_date : ℚ)
            / (daysBetween prev (shift_month prev (-6)) : ℚ))

/-- C5 counterexample: at `g425` settled 2025-06-02 with dirty price 100
(one remaining coupon, `d1 = 2`, `s = 181`, `r = 59`) and the power
primitive `pw a b = a·b`, the code returns `f·(X − 1) = 6281/1475`, while
the claim's expression `f·X − 1` (standard precedence) is `7756/1475`. -/
theorem ytm_final_period_counterexample :
    g425.ytm [] (fun a b => a * b) (fun _ v => v) 100 ⟨2025, 6, 2⟩ = some (6281 / 1475) ∧
    specFinalDividend [] g425 ⟨2025, 1, 31⟩ ⟨2025, 7, 31⟩ ⟨2025, 6, 2⟩ = 2 ∧
    (2 : ℚ) * ((fun a b => a * b) ((2 + 100) / 100) ((181 : ℚ) / 59)) - 1 = 7756 / 1475 ∧
    ((6281 : ℚ) / 1475) ≠ 7756 / 1475 := by
  refine ⟨by decide, by decide, by decide, by decide⟩

/-- C5 (amended): in the final-period case (`n = 0`: a single remaining
coupon date, settlement strictly after the previous coupon), `ytm` returns
`y = f · (((d1 + 100)/P)^(s/r) − 1)` — the whole bracket is scaled by
`f = 2` — with `d1` the possibly zeroed/adjusted next dividend,
`r = (next_coupon − settlement).days` and
`s = (next_coupon − prev_coupon).days`. -/
theorem ytm_final_period_formula (hol : List ℤ) (pw : ℚ → ℚ → ℚ)
    (ns : (ℚ → ℚ) → ℚ → ℚ) (g : Gilt) (P : ℚ) (s prev next : Date)
    (hcd : g.coupon_dates s = some (prev, [next]))
    (hps : ltD prev s) (hsn : leD s next)
    (hin : leD g.issue_date next)
    (h181 : 181 ≤ daysBetween next prev) (h184 : daysBetween next prev ≤ 184)
    (hr0 : daysBetween next s ≠ 0) :
    g.ytm hol pw ns P s
      = some (2 * (pw ((specFinalDividend hol g prev next s + 100) / P)
          ((daysBetween next prev : ℚ) / (daysBetween next s : ℚ)) - 1)) := by
  have hnle : ¬ leD s prev := by unfold leD ltD at *; omega
  unfold Gilt.ytm specFinalDividend
  rw [hcd]
  simp only [List.length_nil]
  by_cases hxd : toRD s > ex_dividend_date hol next
  · rw [if_pos hxd, if_pos hxd]
    simp only [if_pos (And.intro hps hsn), if_pos (And.intro h181 h184),
      if_neg hr0, if_neg (show ¬ (0 : ℕ) < 0 by omega)]
  · rw [if_neg hxd, if_neg hxd]
    rcases hper : g.period prev with _ | _ | _ <;> simp only [hper]
    · simp only [if_pos (And.intro hps hsn), if_pos (And.intro h181 h184),
        if_neg hr0, if_neg (show ¬ (0 : ℕ) < 0 by omega)]
    · have hle : leD prev g.issue_date := by
        unfold Gilt.period at hper
        split_ifs at hper with hA hB
        exact hB
      rw [if_pos ⟨hle, hin⟩]
      simp only [if_pos (And.intro hps hsn), if_pos (And.intro h181 h184),
        if_neg hr0, if_neg (show ¬ (0 : ℕ) < 0 by omega)]
    · rw [if_neg hnle]
      simp only [if_pos (And.intro hps hsn), if_pos (And.intro h181 h184),
        if_neg hr0, if_neg (show ¬ (0 : ℕ) < 0 by omega)]

/-- Witness for the amended C5 at `g425` settled 2025-06-02 with the power
primitive `pw a b = a·b` and dirty price 100. -/
theorem ytm_final_period_formula_witness :
    g425.coupon_dates ⟨2025, 6, 2⟩ = some (⟨2025, 1, 31⟩, [⟨2025, 7, 31⟩]) ∧
    ltD ⟨2025, 1, 31⟩ (⟨2025, 6, 2⟩ : Date) ∧
    leD ⟨2025, 6, 2⟩ (⟨2025, 7, 31⟩ : Date) ∧
    leD g425.issue_date ⟨2025, 7, 31⟩ ∧
    181 ≤ daysBetween ⟨2025, 7, 31⟩ ⟨2025, 1, 31⟩ ∧
    daysBetween ⟨2025, 7, 31⟩ ⟨2025, 1, 31⟩ ≤ 184 ∧
    daysBetween ⟨2025, 7, 31⟩ ⟨2025, 6, 2⟩ ≠ 0 ∧
    g425.ytm [] (fun a b => a * b) (fun _ v => v) 100 ⟨2025, 6, 2⟩
      = some (2 * ((fun a b => a * b)
          ((specFinalDividend [] g425 ⟨2025, 1, 31⟩ ⟨2025, 7, 31⟩ ⟨2025, 6, 2⟩ + 100) / 100)
          ((daysBetween ⟨2025, 7, 31⟩ ⟨2025, 1, 31⟩ : ℚ)
            / (daysBetween ⟨2025, 7, 31⟩ ⟨2025, 6, 2⟩ : ℚ)) - 1)) :=
  ⟨by decide, by decide, by decide, by decide, by decide, by decide, by decide,
   ytm_final_period_formula [] (fun a b => a * b) (fun _ v => v) g425 100 ⟨2025, 6, 2⟩
     ⟨2025, 1, 31⟩ ⟨2025, 7, 31⟩ (by decide) (by decide) (by decide) (by decide)
     (by decide) (by decide) (by decide)⟩
